import Mathlib

/-!
Shallow embedding of the pixel transform engine of `image_encryption.py`
(class `ImageCipher`): per-channel math operations (xor, add, sub, all
modulo 256), channel swapping, key and swap-selector validation, and the
encrypt/decrypt mode resolution in `ImageCipher.transform`.

File I/O (PIL image decode/encode, path checks) is outside the engine and
is not modelled; `transform` here takes the pixel list that
`list(img.getdata())` would produce and returns the list passed to
`putdata`, or the error the Python code would raise (a `ValueError`,
distinguished below by its raise site).
-/

/-- Error kinds of the engine: each constructor stands for one `raise
ValueError` site of the source. -/
inductive CipherError where
  | invalidKey
  | invalidSwapSelector
  | unknownOp
deriving DecidableEq, Repr

/-- A pixel as the engine receives it: a tuple of 3 or 4 channel values
(the actual `transform` path always produces 4-tuples via
`convert("RGBA")`, but `_extract_channels` accepts both arities). -/
inductive PyPixel where
  | rgb  (r g b : Nat)
  | rgba (r g b a : Nat)
deriving DecidableEq, Repr

/-- An output pixel: always a 4-tuple (R, G, B, A). -/
abbrev Pixel4 := Nat × Nat × Nat × Nat

/-- A Python value passed as `key`: either an `int`, or some value that is
not an `int` (a non-integral key). `None` is modelled by `Option.none` at
the call sites. -/
inductive KeyVal where
  | int (n : Int)
  | nonint
deriving DecidableEq, Repr

/-- `ImageCipher._validate_key` (lines 27-33): `None` raises, a non-`int`
or an `int` outside `[0, 255]` raises, otherwise the key is returned. -/
def validate_key : Option KeyVal → Except CipherError Nat
  | none => .error .invalidKey
  | some .nonint => .error .invalidKey
  | some (.int n) => if n < 0 ∨ 255 < n then .error .invalidKey else .ok n.toNat

/-- `ImageCipher._extract_channels` (lines 35-42): a 3-tuple gets alpha
255, a 4-tuple passes through. -/
def extract_channels : PyPixel → Pixel4
  | .rgb r g b => (r, g, b, 255)
  | .rgba r g b a => (r, g, b, a)

/-- `ImageCipher._apply_channel_math` (lines 44-59). Python `%` on ints
agrees with Lean `Int.emod` for the positive modulus 256, so `(c - key) %
256` is embedded as `Int` subtraction followed by `% 256` and `toNat`
(the result is non-negative). An unrecognized operation string leaves the
channels unchanged, exactly as the if/elif chain does. -/
def apply_channel_math (pixel : PyPixel) (op : String) (key : Nat) : Pixel4 :=
  match extract_channels pixel with
  | (r, g, b, a) =>
    if op = "xor" then (r ^^^ key, g ^^^ key, b ^^^ key, a)
    else if op = "add" then ((r + key) % 256, (g + key) % 256, (b + key) % 256, a)
    else if op = "sub" then
      ((((r : Int) - key) % 256).toNat, (((g : Int) - key) % 256).toNat,
       (((b : Int) - key) % 256).toNat, a)
    else (r, g, b, a)

/-- `ImageCipher._swap_channels` (lines 61-74): the dictionary lookup as a
case split; a swap type outside the dictionary raises. -/
def swap_channels (pixel : PyPixel) (sw : String) : Except CipherError Pixel4 :=
  match extract_channels pixel with
  | (r, g, b, a) =>
    if sw = "rg" then .ok (g, r, b, a)
    else if sw = "rb" then .ok (b, g, r, a)
    else if sw = "gb" then .ok (r, b, g, a)
    else .error .invalidSwapSelector

/-- Mode resolution inside `ImageCipher.transform` (lines 95-103): the
`actual_op` that the per-pixel loop applies. Only the literal string
`"decrypt"` flips add and sub; every other mode string leaves the
operation as requested. -/
def actual_op (mode op : String) : String :=
  if mode = "decrypt" then
    if op = "add" then "sub"
    else if op = "sub" then "add"
    else op
  else op

/-- `ImageCipher.transform` (lines 76-128), restricted to the engine: the
pixel list in, the transformed list (or the raised error) out. Math
operations validate the key first and then map the resolved operation
over every pixel; swap validates the selector (Python `not swap_type or
swap_type not in [...]`, where `None` and the empty string are falsy) and
then maps the swap; any other operation string raises. -/
def transform (pixels : List PyPixel) (mode op : String)
    (key : Option KeyVal) (swap_type : Option String) :
    Except CipherError (List Pixel4) :=
  if op = "xor" ∨ op = "add" ∨ op = "sub" then
    match validate_key key with
    | .error e => .error e
    | .ok validated_key =>
        .ok (pixels.map fun p => apply_channel_math p (actual_op mode op) validated_key)
  else if op = "swap" then
    match swap_type with
    | none => .error .invalidSwapSelector
    | some sw =>
        if sw = "rg" ∨ sw = "rb" ∨ sw = "gb" then
          pixels.mapM fun p => swap_channels p sw
        else .error .invalidSwapSelector
  else .error .unknownOp

/-- Repack an output 4-tuple as an input pixel, as feeding the written
RGBA image back into the engine would. -/
def toPyPixel (q : Pixel4) : PyPixel := .rgba q.1 q.2.1 q.2.2.1 q.2.2.2

/-- In-range RGBA pixel: the shape every pixel coming out of PIL
`convert("RGBA")` has, with byte-valued channels. -/
def goodPixel : PyPixel → Bool
  | .rgba r g b a => r ≤ 255 && g ≤ 255 && b ≤ 255 && a ≤ 255
  | .rgb _ _ _ => false

/-- The swap dictionary as a pure function; it agrees with `swap_channels`
on recognized selectors (`swap_channels_eq_ok`). -/
def swapVal (sw : String) (p : PyPixel) : Pixel4 :=
  match extract_channels p with
  | (r, g, b, a) =>
    if sw = "rg" then (g, r, b, a)
    else if sw = "rb" then (b, g, r, a)
    else if sw = "gb" then (r, b, g, a)
    else (r, g, b, a)

lemma swap_channels_eq_ok (p : PyPixel) (sw : String)
    (h : sw = "rg" ∨ sw = "rb" ∨ sw = "gb") :
    swap_channels p sw = .ok (swapVal sw p) := by
  rcases h with h | h | h <;> subst h <;>
    rcases hp : extract_channels p with ⟨r, g, b, a⟩ <;>
    simp [swap_channels, swapVal, hp]

lemma mapM_ok {α β : Type} (g : α → Except CipherError β) (f : α → β)
    (l : List α) (h : ∀ a ∈ l, g a = .ok (f a)) :
    l.mapM g = Except.ok (l.map f) := by
  induction l with
  | nil => rfl
  | cons x xs ih =>
    rw [List.mapM_cons, h x (by simp), ih (fun a ha => h a (by simp [ha]))]
    rfl

lemma validate_key_nat (k : Nat) (hk : k ≤ 255) :
    validate_key (some (.int (k : Int))) = .ok k := by
  have hno : ¬ ((k : Int) < 0 ∨ 255 < (k : Int)) := by omega
  simp [validate_key, hno] <;> omega

lemma actual_op_of_ne (mode op : String) (hm : mode ≠ "decrypt") :
    actual_op mode op = op := by simp [actual_op, hm]

lemma transform_math_ok (pixels : List PyPixel) (mode op : String) (k : Nat)
    (hop : op = "xor" ∨ op = "add" ∨ op = "sub") (hk : k ≤ 255) (st : Option String) :
    transform pixels mode op (some (.int (k : Int))) st =
      .ok (pixels.map fun p => apply_channel_math p (actual_op mode op) k) := by
  rcases hop with h | h | h <;> subst h <;>
    simp [transform, validate_key_nat k hk]

lemma pixel_round_trip (r g b a k : Nat) (op : String)
    (hop : op = "xor" ∨ op = "add" ∨ op = "sub")
    (hr : r ≤ 255) (hg : g ≤ 255) (hb : b ≤ 255) :
    apply_channel_math (toPyPixel (apply_channel_math (.rgba r g b a) op k))
      (actual_op "decrypt" op) k = (r, g, b, a) := by
  rcases hop with h | h | h <;> subst h <;>
    simp [apply_channel_math, toPyPixel, actual_op, extract_channels,
      Nat.xor_cancel_right] <;> omega

/-- C1: for every pixel sequence of in-range RGBA pixels, every key k in
[0,255] and every math operation (xor, add, sub), running the transform in
decrypt mode on the encrypt-mode output with the same operation and key
returns the input pixels exactly, element-wise and channel-wise. -/
theorem round_trip_math (pixels : List PyPixel) (op : String) (k : Nat)
    (hop : op = "xor" ∨ op = "add" ∨ op = "sub") (hk : k ≤ 255)
    (hpix : pixels.all goodPixel = true) :
    ∃ out, transform pixels "encrypt" op (some (.int (k : Int))) none = .ok out ∧
      transform (out.map toPyPixel) "decrypt" op (some (.int (k : Int))) none =
        .ok (pixels.map extract_channels) := by
  refine ⟨pixels.map fun p => apply_channel_math p op k, ?_, ?_⟩
  · have h := transform_math_ok pixels "encrypt" op k hop hk none
    rwa [actual_op_of_ne _ _ (by decide)] at h
  · rw [transform_math_ok _ "decrypt" op k hop hk none, List.map_map, List.map_map]
    congr 1
    refine List.map_congr_left fun p hp => ?_
    have hgp : goodPixel p = true := by
      rw [List.all_eq_true] at hpix ; exact hpix p hp
    cases p with
    | rgb r g b => simp [goodPixel] at hgp
    | rgba r g b a =>
        simp only [goodPixel, Bool.and_eq_true, decide_eq_true_eq] at hgp
        obtain ⟨⟨⟨hr, hg⟩, hb⟩, _⟩ := hgp
        simpa [Function.comp, extract_channels] using
          pixel_round_trip r g b a k op hop hr hg hb

/-- C1 witness at a concrete input: pixel (250,10,5,255), op add, key 10. -/
theorem round_trip_math_witness :
    ∃ out, transform [PyPixel.rgba 250 10 5 255] "encrypt" "add"
        (some (.int ((10 : Nat) : Int))) none = .ok out ∧
      transform (out.map toPyPixel) "decrypt" "add" (some (.int ((10 : Nat) : Int))) none =
        .ok ([PyPixel.rgba 250 10 5 255].map extract_channels) :=
  round_trip_math [PyPixel.rgba 250 10 5 255] "add" 10
    (by simp) (by omega) (by decide)

lemma swap_swap_pixel (sw : String) (hsw : sw = "rg" ∨ sw = "rb" ∨ sw = "gb")
    (p : PyPixel) : swapVal sw (toPyPixel (swapVal sw p)) = extract_channels p := by
  rcases hsw with h | h | h <;> subst h <;> cases p <;>
    simp [swapVal, toPyPixel, extract_channels]

lemma transform_swap_ok (pixels : List PyPixel) (mode : String) (key : Option KeyVal)
    (sw : String) (hsw : sw = "rg" ∨ sw = "rb" ∨ sw = "gb") :
    transform pixels mode "swap" key (some sw) = .ok (pixels.map (swapVal sw)) := by
  have hmap := mapM_ok (fun p => swap_channels p sw) (swapVal sw) pixels
    (fun p _ => swap_channels_eq_ok p sw hsw)
  rcases hsw with h | h | h <;> subst h <;> (simp [transform]; exact hmap)

/-- C2: applying the swap operation twice with the same selector (rg, rb
or gb) returns every pixel exactly, channel-wise; the mode string plays no
role in the swap branch, so the same exchange is applied regardless of
mode. -/
theorem round_trip_swap (pixels : List PyPixel) (sw : String)
    (hsw : sw = "rg" ∨ sw = "rb" ∨ sw = "gb")
    (m1 m2 : String) (k1 k2 : Option KeyVal) :
    ∃ out, transform pixels m1 "swap" k1 (some sw) = .ok out ∧
      transform (out.map toPyPixel) m2 "swap" k2 (some sw) =
        .ok (pixels.map extract_channels) ∧
      transform pixels m1 "swap" k1 (some sw) = transform pixels m2 "swap" k1 (some sw) := by
  refine ⟨pixels.map (swapVal sw), transform_swap_ok pixels m1 k1 sw hsw, ?_, ?_⟩
  · rw [transform_swap_ok _ m2 k2 sw hsw, List.map_map, List.map_map]
    congr 1
    refine List.map_congr_left fun p _ => ?_
    simpa [Function.comp] using swap_swap_pixel sw hsw p
  · rw [transform_swap_ok _ m1 k1 sw hsw, transform_swap_ok _ m2 k1 sw hsw]

/-- C2 witness at a concrete input: pixel (1,2,3,255), selector rb, with
two different modes and keys. -/
theorem round_trip_swap_witness :
    ∃ out, transform [PyPixel.rgba 1 2 3 255] "encrypt" "swap" none (some "rb") = .ok out ∧
      transform (out.map toPyPixel) "decrypt" "swap" (some (.int 7)) (some "rb") =
        .ok ([PyPixel.rgba 1 2 3 255].map extract_channels) ∧
      transform [PyPixel.rgba 1 2 3 255] "encrypt" "swap" none (some "rb") =
        transform [PyPixel.rgba 1 2 3 255] "decrypt" "swap" none (some "rb") :=
  round_trip_swap [PyPixel.rgba 1 2 3 255] "rb" (by simp) "encrypt" "decrypt"
    none (some (.int 7))

/-- C3: for every RGBA pixel, every math operation string and key, and
every successful swap, the alpha channel of the output equals the alpha
channel of the input; only R, G, B may change. -/
theorem alpha_unchanged (r g b a k : Nat) (op sw : String) (q : Pixel4)
    (hq : swap_channels (.rgba r g b a) sw = .ok q) :
    (apply_channel_math (.rgba r g b a) op k).2.2.2 = a ∧ q.2.2.2 = a := by
  constructor
  · simp only [apply_channel_math, extract_channels]
    split_ifs <;> rfl
  · simp only [swap_channels, extract_channels] at hq
    split_ifs at hq <;> first
      | (cases hq ; rfl)
      | simp at hq

/-- C3 witness: pixel (1,2,3,7), op add with key 5, swap rg. -/
theorem alpha_unchanged_witness :
    (apply_channel_math (.rgba 1 2 3 7) "add" 5).2.2.2 = 7 ∧
      ((2, 1, 3, 7) : Pixel4).2.2.2 = 7 :=
  alpha_unchanged 1 2 3 7 5 "add" "rg" (2, 1, 3, 7) (by rfl)

/-- C4: whenever the transform succeeds, the output has the length of the
input and output[i] is one fixed per-pixel function of input[i] for every
index — the resolved math operation with the validated key, or the
selected swap; no pixel is reordered, dropped or duplicated. -/
theorem transform_pointwise (pixels : List PyPixel) (mode op : String)
    (key : Option KeyVal) (st : Option String) (out : List Pixel4)
    (h : transform pixels mode op key st = .ok out) :
    out.length = pixels.length ∧
    ∃ f : PyPixel → Pixel4,
      out = pixels.map f ∧
      (∀ i : Nat, out[i]? = Option.map f pixels[i]?) ∧
      ((∃ vk, validate_key key = .ok vk ∧
          ∀ p, f p = apply_channel_math p (actual_op mode op) vk) ∨
       (∃ sw, st = some sw ∧ ∀ p, swap_channels p sw = .ok (f p))) := by
  unfold transform at h
  split at h
  · rename_i hop
    split at h
    · cases h
    · rename_i vk hv
      injection h with h2
      subst h2
      refine ⟨by simp, fun p => apply_channel_math p (actual_op mode op) vk, rfl, ?_, ?_⟩
      · intro i ; simp
      · exact Or.inl ⟨vk, hv, fun p => rfl⟩
  · rename_i hop
    split at h
    · split at h
      · cases h
      · rename_i sw
        split at h
        · rename_i hsw
          rw [mapM_ok _ (swapVal sw) pixels
            (fun p _ => swap_channels_eq_ok p sw hsw)] at h
          injection h with h2
          subst h2
          refine ⟨by simp, swapVal sw, rfl, ?_, ?_⟩
          · intro i ; simp
          · exact Or.inr ⟨sw, rfl, fun p => swap_channels_eq_ok p sw hsw⟩
        · cases h
    · cases h

/-- C4 witness: one pixel, xor with key 5 in encrypt mode succeeds and
the conclusion holds at that concrete run. -/
theorem transform_pointwise_witness :
    ([((4 : Nat), (7 : Nat), (6 : Nat), (4 : Nat))] : List Pixel4).length =
      ([PyPixel.rgba 1 2 3 4]).length ∧
    ∃ f : PyPixel → Pixel4,
      [((4 : Nat), (7 : Nat), (6 : Nat), (4 : Nat))] = [PyPixel.rgba 1 2 3 4].map f ∧
      (∀ i : Nat, ([((4 : Nat), (7 : Nat), (6 : Nat), (4 : Nat))] : List Pixel4)[i]? =
        Option.map f ([PyPixel.rgba 1 2 3 4])[i]?) ∧
      ((∃ vk, validate_key (some (.int 5)) = .ok vk ∧
          ∀ p, f p = apply_channel_math p (actual_op "encrypt" "xor") vk) ∨
       (∃ sw, (none : Option String) = some sw ∧
          ∀ p, swap_channels p sw = .ok (f p))) :=
  transform_pointwise [PyPixel.rgba 1 2 3 4] "encrypt" "xor" (some (.int 5)) none
    [(4, 7, 6, 4)] (by rfl)

/-- C5: for each math operation, keys 0 and 255 are accepted, while a
missing key, a non-integral key, -1 and 256 each produce the invalid-key
error with no output. -/
theorem key_boundary (pixels : List PyPixel) (mode : String) (st : Option String)
    (op : String) (hop : op = "xor" ∨ op = "add" ∨ op = "sub") :
    (∃ out, transform pixels mode op (some (.int 0)) st = .ok out) ∧
    (∃ out, transform pixels mode op (some (.int 255)) st = .ok out) ∧
    transform pixels mode op none st = .error .invalidKey ∧
    transform pixels mode op (some .nonint) st = .error .invalidKey ∧
    transform pixels mode op (some (.int (-1))) st = .error .invalidKey ∧
    transform pixels mode op (some (.int 256)) st = .error .invalidKey := by
  rcases hop with h | h | h <;> subst h <;>
    exact ⟨⟨_, transform_math_ok pixels mode _ 0 (by simp) (by omega) st⟩,
      ⟨_, transform_math_ok pixels mode _ 255 (by simp) (by omega) st⟩,
      by simp [transform, validate_key], by simp [transform, validate_key],
      by simp [transform, validate_key], by simp [transform, validate_key]⟩

/-- C5 witness at op = xor with empty pixel list. -/
theorem key_boundary_witness :
    (∃ out, transform [] "encrypt" "xor" (some (.int 0)) none = .ok out) ∧
    (∃ out, transform [] "encrypt" "xor" (some (.int 255)) none = .ok out) ∧
    transform [] "encrypt" "xor" none none = .error .invalidKey ∧
    transform [] "encrypt" "xor" (some .nonint) none = .error .invalidKey ∧
    transform [] "encrypt" "xor" (some (.int (-1))) none = .error .invalidKey ∧
    transform [] "encrypt" "xor" (some (.int 256)) none = .error .invalidKey :=
  key_boundary [] "encrypt" none "xor" (by simp)

/-- C6: for the swap operation, an absent selector or a selector other
than rg, rb, gb produces the invalid-swap-selector error with no
output. -/
theorem swap_selector_boundary (pixels : List PyPixel) (mode : String)
    (key : Option KeyVal) (sw : String)
    (h1 : sw ≠ "rg") (h2 : sw ≠ "rb") (h3 : sw ≠ "gb") :
    transform pixels mode "swap" key none = .error .invalidSwapSelector ∧
    transform pixels mode "swap" key (some sw) = .error .invalidSwapSelector := by
  constructor <;> simp [transform, h1, h2, h3]

/-- C6 witness at the unrecognized selector "gr". -/
theorem swap_selector_boundary_witness :
    transform [] "encrypt" "swap" none none = .error .invalidSwapSelector ∧
    transform [] "encrypt" "swap" none (some "gr") = .error .invalidSwapSelector :=
  swap_selector_boundary [] "encrypt" none "gr" (by simp) (by simp) (by simp)

lemma actual_op_encrypt_id (op : String) : actual_op "encrypt" op = op := by
  simp [actual_op]

/-- C7: mode resolution — add in decrypt mode applies the per-channel
subtraction (c - k) mod 256, sub in decrypt mode applies (c + k) mod 256,
xor applies c XOR k in both modes, and the resolved operation is mapped
uniformly over the whole pixel sequence. -/
theorem mode_resolution (pixels : List PyPixel) (k : Nat) (hk : k ≤ 255)
    (r g b a : Nat) :
    transform pixels "decrypt" "add" (some (.int (k : Int))) none =
      .ok (pixels.map fun p => apply_channel_math p "sub" k) ∧
    transform pixels "decrypt" "sub" (some (.int (k : Int))) none =
      .ok (pixels.map fun p => apply_channel_math p "add" k) ∧
    transform pixels "encrypt" "xor" (some (.int (k : Int))) none =
      .ok (pixels.map fun p => apply_channel_math p "xor" k) ∧
    transform pixels "decrypt" "xor" (some (.int (k : Int))) none =
      .ok (pixels.map fun p => apply_channel_math p "xor" k) ∧
    apply_channel_math (.rgba r g b a) "sub" k =
      ((((r : Int) - k) % 256).toNat, (((g : Int) - k) % 256).toNat,
       (((b : Int) - k) % 256).toNat, a) ∧
    apply_channel_math (.rgba r g b a) "add" k =
      ((r + k) % 256, (g + k) % 256, (b + k) % 256, a) ∧
    apply_channel_math (.rgba r g b a) "xor" k = (r ^^^ k, g ^^^ k, b ^^^ k, a) := by
  refine ⟨?_, ?_, ?_, ?_, by simp [apply_channel_math, extract_channels],
      by simp [apply_channel_math, extract_channels],
      by simp [apply_channel_math, extract_channels]⟩ <;>
    refine (transform_math_ok pixels _ _ k (by simp) hk none).trans ?_ <;>
    simp [actual_op]

/-- C7 witness at pixel (250,10,5,255) and key 10. -/
theorem mode_resolution_witness :
    transform [PyPixel.rgba 250 10 5 255] "decrypt" "add"
        (some (.int ((10 : Nat) : Int))) none =
      .ok ([PyPixel.rgba 250 10 5 255].map fun p => apply_channel_math p "sub" 10) ∧
    transform [PyPixel.rgba 250 10 5 255] "decrypt" "sub"
        (some (.int ((10 : Nat) : Int))) none =
      .ok ([PyPixel.rgba 250 10 5 255].map fun p => apply_channel_math p "add" 10) ∧
    transform [PyPixel.rgba 250 10 5 255] "encrypt" "xor"
        (some (.int ((10 : Nat) : Int))) none =
      .ok ([PyPixel.rgba 250 10 5 255].map fun p => apply_channel_math p "xor" 10) ∧
    transform [PyPixel.rgba 250 10 5 255] "decrypt" "xor"
        (some (.int ((10 : Nat) : Int))) none =
      .ok ([PyPixel.rgba 250 10 5 255].map fun p => apply_channel_math p "xor" 10) ∧
    apply_channel_math (.rgba 250 10 5 255) "sub" 10 =
      ((((250 : Int) - 10) % 256).toNat, (((10 : Int) - 10) % 256).toNat,
       (((5 : Int) - 10) % 256).toNat, 255) ∧
    apply_channel_math (.rgba 250 10 5 255) "add" 10 =
      ((250 + 10) % 256, (10 + 10) % 256, (5 + 10) % 256, 255) ∧
    apply_channel_math (.rgba 250 10 5 255) "xor" 10 =
      (250 ^^^ 10, 10 ^^^ 10, 5 ^^^ 10, 255) :=
  mode_resolution [PyPixel.rgba 250 10 5 255] 10 (by omega) 250 10 5 255

/-- C8: per-channel arithmetic wraps modulo 256 and is never clamped: add
yields (c + k) mod 256, sub yields the non-negative (c - k) mod 256, both
strictly below 256; concretely, pixel (250,10,5,255) with add and key 10
in encrypt mode wraps to (4,20,15,255), and decrypt brings it back. -/
theorem modular_wrap (r g b a k : Nat) :
    apply_channel_math (.rgba r g b a) "add" k =
      ((r + k) % 256, (g + k) % 256, (b + k) % 256, a) ∧
    apply_channel_math (.rgba r g b a) "sub" k =
      ((((r : Int) - k) % 256).toNat, (((g : Int) - k) % 256).toNat,
       (((b : Int) - k) % 256).toNat, a) ∧
    (r + k) % 256 < 256 ∧
    (0 : Int) ≤ ((r : Int) - k) % 256 ∧ ((r : Int) - k) % 256 < 256 ∧
    transform [PyPixel.rgba 250 10 5 255] "encrypt" "add" (some (.int 10)) none =
      .ok [(4, 20, 15, 255)] ∧
    transform [PyPixel.rgba 4 20 15 255] "decrypt" "add" (some (.int 10)) none =
      .ok [(250, 10, 5, 255)] :=
  ⟨by simp [apply_channel_math, extract_channels],
   by simp [apply_channel_math, extract_channels],
   by omega, by omega, by omega, by rfl, by rfl⟩

/-- C9: the engine never validates the mode string — any mode other than
"decrypt" behaves exactly as encrypt mode for every operation, key and
selector, and no error arises from the mode. -/
theorem mode_not_validated (pixels : List PyPixel) (mode op : String)
    (key : Option KeyVal) (st : Option String) (hm : mode ≠ "decrypt") :
    transform pixels mode op key st = transform pixels "encrypt" op key st := by
  simp only [transform, actual_op_of_ne _ _ hm, actual_op_encrypt_id]

/-- C9 witness at the arbitrary mode string "banana". -/
theorem mode_not_validated_witness :
    transform [PyPixel.rgba 1 2 3 4] "banana" "add" (some (.int 7)) none =
      transform [PyPixel.rgba 1 2 3 4] "encrypt" "add" (some (.int 7)) none :=
  mode_not_validated [PyPixel.rgba 1 2 3 4] "banana" "add" (some (.int 7)) none
    (by simp)

/-- C10: parameters irrelevant to the selected operation are ignored and
never validated — for swap, the output does not depend on the key at all;
for the math operations, it does not depend on the swap selector. -/
theorem irrelevant_params (pixels : List PyPixel) (mode op : String)
    (k1 k2 key : Option KeyVal) (s1 s2 : Option String) (st : Option String)
    (hop : op = "xor" ∨ op = "add" ∨ op = "sub") :
    transform pixels mode "swap" k1 st = transform pixels mode "swap" k2 st ∧
    transform pixels mode op key s1 = transform pixels mode op key s2 := by
  constructor
  · simp [transform]
  · rcases hop with h | h | h <;> subst h <;> simp [transform]

/-- C10 witness: a swap run with an out-of-range key versus a non-integral
key, and an add run with selector "gr" versus no selector. -/
theorem irrelevant_params_witness :
    transform [PyPixel.rgba 1 2 3 4] "encrypt" "swap" (some (.int 999)) (some "rg") =
      transform [PyPixel.rgba 1 2 3 4] "encrypt" "swap" (some .nonint) (some "rg") ∧
    transform [PyPixel.rgba 1 2 3 4] "encrypt" "add" (some (.int 7)) (some "gr") =
      transform [PyPixel.rgba 1 2 3 4] "encrypt" "add" (some (.int 7)) none :=
  irrelevant_params [PyPixel.rgba 1 2 3 4] "encrypt" "add" (some (.int 999))
    (some .nonint) (some (.int 7)) (some "gr") none (some "rg") (by simp)
